import Mathlib

/-!
# AES engine driver interface (`include/arm9/drivers/aes.h`)

A shallow embedding of the register-field macros, order/endianness constants
and call signatures declared in `aes.h`, together with the properties of them
that the driver specification relies on.

Machine integers are natural numbers; every place where C arithmetic wraps is
written with an explicit `% 2 ^ w`.
-/

namespace Aes

/-! ## C integer types used by the header -/

/-- The fixed-width types that appear in the declarations of `aes.h`. -/
inductive CType where
  | u8
  | u16
  | u32
  deriving DecidableEq, Repr

/-- Width in bits of a C integer type. -/
def CType.bits : CType → Nat
  | .u8 => 8
  | .u16 => 16
  | .u32 => 32

/-- Conversion of an arbitrary value to a C unsigned type (reduction modulo `2 ^ bits`). -/
def CType.conv (t : CType) (n : Nat) : Nat := n % 2 ^ t.bits

/-- A value is representable in a C unsigned type. -/
def CType.holds (t : CType) (n : Nat) : Prop := n < 2 ^ t.bits

instance (t : CType) (n : Nat) : Decidable (t.holds n) := by
  unfold CType.holds; infer_instance

/-- Truncation to `u32`. -/
def u32 (n : Nat) : Nat := n % 2 ^ 32

/-! ## Constants and macros of `aes.h` (lines 29-60) -/

/-- `#define AES_MAX_BLOCKS (0xFFFE)`. -/
def AES_MAX_BLOCKS : Nat := 0xFFFE

/-- Size in bytes of one AES block ("1 block is 16 bytes"). -/
def AES_BLOCK_SIZE : Nat := 16

/-- `#define AES_WRITE_FIFO_COUNT (REG_AESCNT & 0x1F)`, as a function of the register value. -/
def AES_WRITE_FIFO_COUNT (REG_AESCNT : Nat) : Nat := REG_AESCNT &&& 0x1F

/-- `#define AES_READ_FIFO_COUNT (REG_AESCNT & 0x3E0)`, as a function of the register value. -/
def AES_READ_FIFO_COUNT (REG_AESCNT : Nat) : Nat := REG_AESCNT &&& 0x3E0

/-- `#define AES_FLUSH_READ_FIFO (1u<<10)`. -/
def AES_FLUSH_READ_FIFO : Nat := u32 (1 <<< 10)

/-- `#define AES_FLUSH_WRITE_FIFO (1u<<11)`. -/
def AES_FLUSH_WRITE_FIFO : Nat := u32 (1 <<< 11)

/-- `#define AES_MAC_SIZE(n) ((((n) - 2) / 2)<<16)` with `n` a `u32` (the type of
`macSize` in `AES_ccm`): the subtraction and the shift are unsigned 32-bit operations. -/
def AES_MAC_SIZE (n : Nat) : Nat := u32 ((u32 (n + 2 ^ 32 - 2) / 2) <<< 16)

/-- `#define AES_PASS_PAYLOARD (1u<<19)`. -/
def AES_PASS_PAYLOARD : Nat := u32 (1 <<< 19)

/-- `#define AES_MAC_SRC_REG (1u<<20)`. -/
def AES_MAC_SRC_REG : Nat := u32 (1 <<< 20)

/-- `#define AES_IS_MAC_VALID ((bool)(REG_AESCNT>>21 & 1u))`, as a function of the register value. -/
def AES_IS_MAC_VALID (REG_AESCNT : Nat) : Bool := (REG_AESCNT >>> 21 &&& 1) != 0

/-- `#define AES_OUTPUT_BIG (1u)`. -/
def AES_OUTPUT_BIG : Nat := 1

/-- `#define AES_OUTPUT_LITTLE (0u)`. -/
def AES_OUTPUT_LITTLE : Nat := 0

/-- `#define AES_INPUT_BIG (1u)`. -/
def AES_INPUT_BIG : Nat := 1

/-- `#define AES_INPUT_LITTLE (0u)`. -/
def AES_INPUT_LITTLE : Nat := 0

/-- `#define AES_OUTPUT_NORMAL (4u)`. -/
def AES_OUTPUT_NORMAL : Nat := 4

/-- `#define AES_OUTPUT_REVERSED (0u)`. -/
def AES_OUTPUT_REVERSED : Nat := 0

/-- `#define AES_INPUT_NORMAL (4u)`. -/
def AES_INPUT_NORMAL : Nat := 4

/-- `#define AES_INPUT_REVERSED (0u)`. -/
def AES_INPUT_REVERSED : Nat := 0

/-- `#define AES_UPDATE_KEYSLOT (1u<<26)`. -/
def AES_UPDATE_KEYSLOT : Nat := u32 (1 <<< 26)

/-- `#define AES_IRQ_ENABLE (1u<<30)`. -/
def AES_IRQ_ENABLE : Nat := u32 (1 <<< 30)

/-- `#define AES_ENABLE (1u<<31)`. -/
def AES_ENABLE : Nat := u32 (1 <<< 31)

/-- `#define AES_MODE_CCM_DECRYPT (0u)`. -/
def AES_MODE_CCM_DECRYPT : Nat := 0

/-- `#define AES_MODE_CCM_ENCRYPT (1u<<27)`. -/
def AES_MODE_CCM_ENCRYPT : Nat := u32 (1 <<< 27)

/-- `#define AES_MODE_CTR (2u<<27)`. -/
def AES_MODE_CTR : Nat := u32 (2 <<< 27)

/-- `#define AES_MODE_CBC_DECRYPT (4u<<27)`. -/
def AES_MODE_CBC_DECRYPT : Nat := u32 (4 <<< 27)

/-- `#define AES_MODE_CBC_ENCRYPT (5u<<27)`. -/
def AES_MODE_CBC_ENCRYPT : Nat := u32 (5 <<< 27)

/-- `#define AES_MODE_ECB_DECRYPT (6u<<27)`. -/
def AES_MODE_ECB_DECRYPT : Nat := u32 (6 <<< 27)

/-- `#define AES_MODE_ECB_ENCRYPT (7u<<27)`. -/
def AES_MODE_ECB_ENCRYPT : Nat := u32 (7 <<< 27)

/-- The seven `AES_MODE_*` codes, in header order. -/
def aesModes : List Nat :=
  [AES_MODE_CCM_DECRYPT, AES_MODE_CCM_ENCRYPT, AES_MODE_CTR, AES_MODE_CBC_DECRYPT,
   AES_MODE_CBC_ENCRYPT, AES_MODE_ECB_DECRYPT, AES_MODE_ECB_ENCRYPT]

/-- The byte-order choices for the input stream. -/
def inputByteOrders : List Nat := [AES_INPUT_BIG, AES_INPUT_LITTLE]

/-- The word-order choices for the input stream. -/
def inputWordOrders : List Nat := [AES_INPUT_NORMAL, AES_INPUT_REVERSED]

/-- The byte-order choices for the output stream. -/
def outputByteOrders : List Nat := [AES_OUTPUT_BIG, AES_OUTPUT_LITTLE]

/-- The word-order choices for the output stream. -/
def outputWordOrders : List Nat := [AES_OUTPUT_NORMAL, AES_OUTPUT_REVERSED]

/-- The documented domain of `macSize`: even sizes from 2 to 16 bytes. -/
def validMacSizes : List Nat := [2, 4, 6, 8, 10, 12, 14, 16]

/-! ## Fields of the control register `REG_AESCNT` -/

/-- The mask of `AES_WRITE_FIFO_COUNT`. -/
def writeFifoMask : Nat := 0x1F

/-- The mask of `AES_READ_FIFO_COUNT`. -/
def readFifoMask : Nat := 0x3E0

/-- The three bits (16-18) that `AES_MAC_SIZE` fills for the documented sizes. -/
def macSizeField : Nat := u32 (7 <<< 16)

/-- The bit read by `AES_IS_MAC_VALID` (bit 21). -/
def macValidMask : Nat := u32 (1 <<< 21)

/-- The three bits (27-29) that hold an `AES_MODE_*` code. -/
def modeField : Nat := u32 (7 <<< 27)

/-- The single-bit flags a driver ORs into the control value. -/
def controlFlags : List Nat :=
  [AES_FLUSH_READ_FIFO, AES_FLUSH_WRITE_FIFO, AES_PASS_PAYLOARD, AES_MAC_SRC_REG,
   AES_UPDATE_KEYSLOT, AES_IRQ_ENABLE, AES_ENABLE]

/-- Every field of the control register that the header defines, lowest bits first. -/
def controlFields : List Nat :=
  [writeFifoMask, readFifoMask, AES_FLUSH_READ_FIFO, AES_FLUSH_WRITE_FIFO, macSizeField,
   AES_PASS_PAYLOARD, AES_MAC_SRC_REG, macValidMask, AES_UPDATE_KEYSLOT, modeField,
   AES_IRQ_ENABLE, AES_ENABLE]

/-- The control value assembled from a mode code, a set of flags and a MAC size. -/
def controlValue (mode : Nat) (flags : List Nat) (macSize : Nat) : Nat :=
  mode ||| flags.foldr (fun a b => a ||| b) 0 ||| AES_MAC_SIZE macSize

/-! ## Parameter types of the block count in the crypto calls (lines 150, 176, 194-195) -/

/-- `AES_ccm(..., u16 blocks, bool enc)`. -/
def AES_ccm_blocksType : CType := .u16

/-- `AES_ctr(..., u32 blocks, bool dma)`. -/
def AES_ctr_blocksType : CType := .u32

/-- `AES_ecb(..., u32 blocks, bool enc, bool dma)`. -/
def AES_ecb_blocksType : CType := .u32

/-- The type of the order/endianness bitmask parameters (`u8 orderEndianess`). -/
def orderEndianessType : CType := .u8

/-! ## Data carried by the calls -/

/-- A `u32[4]` array (`ctr[4]`, `mac[4]`, `ctrIvNonce[4]`), word 0 first. -/
structure Words4 where
  w0 : Nat
  w1 : Nat
  w2 : Nat
  w3 : Nat
  deriving DecidableEq, Repr

/-- Every element of the array is a `u32`. -/
def Words4.valid (a : Words4) : Prop :=
  a.w0 < 2 ^ 32 ∧ a.w1 < 2 ^ 32 ∧ a.w2 < 2 ^ 32 ∧ a.w3 < 2 ^ 32

instance (a : Words4) : Decidable a.valid := by
  unfold Words4.valid; infer_instance

/-- The array read as one unsigned 128-bit integer, word 0 least significant. -/
def Words4.toNat (a : Words4) : Nat :=
  a.w0 + 2 ^ 32 * a.w1 + 2 ^ 64 * a.w2 + 2 ^ 96 * a.w3

/-- Element `i` of the array (0 outside the array). -/
def Words4.get (a : Words4) (i : Nat) : Nat :=
  match i with
  | 0 => a.w0
  | 1 => a.w1
  | 2 => a.w2
  | 3 => a.w3
  | _ => 0

/-- The byte at byte offset `k` of the array as it lies in (little-endian) memory. -/
def Words4.byteAt (a : Words4) (k : Nat) : Nat :=
  (a.get (k / 4) >>> (8 * (k % 4))) &&& 0xFF

/-- The four bytes of a word, lowest address first. -/
def wordBytes (w : Nat) : List Nat :=
  [w % 256, w / 2 ^ 8 % 256, w / 2 ^ 16 % 256, w / 2 ^ 24 % 256]

/-- The sixteen bytes of the array, lowest address first. -/
def Words4.bytes (a : Words4) : List Nat :=
  wordBytes a.w0 ++ wordBytes a.w1 ++ wordBytes a.w2 ++ wordBytes a.w3

/-- Word `i` assembled from a byte sequence (missing bytes read as 0). -/
def bytesWord (bs : List Nat) (i : Nat) : Nat :=
  bs.getD (4 * i) 0 + 2 ^ 8 * bs.getD (4 * i + 1) 0 + 2 ^ 16 * bs.getD (4 * i + 2) 0
    + 2 ^ 24 * bs.getD (4 * i + 3) 0

/-- The array assembled from sixteen bytes, lowest address first. -/
def Words4.ofBytes (bs : List Nat) : Words4 :=
  ⟨bytesWord bs 0, bytesWord bs 1, bytesWord bs 2, bytesWord bs 3⟩

/-- `typedef struct { u32 ctrIvNonceParams; u32 ctrIvNonce[4]; u32 aesParams; } AES_ctx;`. -/
structure AES_ctx where
  ctrIvNonceParams : Nat
  ctrIvNonce : Words4
  aesParams : Nat
  deriving DecidableEq, Repr

/-! ## `AES_addCounter` (declared at line 130) -/

/-- One word of a multi-word addition: the 32-bit sum and the carry out. -/
def addWord (w carry : Nat) : Nat × Nat :=
  ((w + carry) % 2 ^ 32, (w + carry) / 2 ^ 32)

/-- Modelled from the spec: the body of `AES_addCounter` (only its declaration is in
`aes.h`). "Increments the 128-bit counter treated as a single big integer by `val`,
handling carry across all four 32-bit words": `val` is added to word 0 and the carry
is passed on through words 1, 2 and 3; the carry out of word 3 is dropped. -/
def AES_addCounter (ctr : Words4) (val : Nat) : Words4 :=
  let s0 := addWord ctr.w0 (u32 val)
  let s1 := addWord ctr.w1 s0.2
  let s2 := addWord ctr.w2 s1.2
  let s3 := addWord ctr.w3 s2.2
  ⟨s0.1, s1.1, s2.1, s3.1⟩

/-! ## `AES_ccm` (declared at lines 194-195) -/

/-- What the engine presents once a CCM transfer has completed. -/
structure EngineDone where
  out : List Nat
  mac : Words4
  REG_AESCNT : Nat

/-- The AES engine seen from the driver: given the programmed nonce, control value,
MAC register, block count and input words it yields the completed state. Nothing is
assumed about it. -/
structure Engine where
  run : Words4 → Nat → Words4 → Nat → List Nat → EngineDone

/-- What a call of `AES_ccm` leaves behind: the output words, the caller's `mac`
buffer and the returned `bool`. -/
structure CcmResult where
  out : List Nat
  mac : Words4
  ret : Bool

/-- Modelled from the spec: the control value `AES_ccm` programs (its body is not in
`aes.h`): "the MAC-size control field" and the "CCM encrypt/decrypt mode bits". -/
def ccmControl (macSize : Nat) (enc : Bool) : Nat :=
  AES_MAC_SIZE macSize ||| (if enc then AES_MODE_CCM_ENCRYPT else AES_MODE_CCM_DECRYPT)

/-- Modelled from the spec: the state of the engine when the transfer started by
`AES_ccm` has completed (the body of `AES_ccm` is not in `aes.h`): the nonce of the
context, the control value, the caller's MAC and `blocks` (a `u16`) are programmed and
the input is transferred. -/
def ccmDone (engine : Engine) (ctx : AES_ctx) (inp : List Nat) (macSize : Nat)
    (mac : Words4) (blocks : Nat) (enc : Bool) : EngineDone :=
  engine.run ctx.ctrIvNonce (ccmControl macSize enc) mac
    (AES_ccm_blocksType.conv blocks) inp

/-- Modelled from the spec: the MAC read back "zero-padded to 4 words beyond `macSize`"
(the body of `AES_ccm` is not in `aes.h`): the first `macSize` bytes of the engine's
MAC followed by zero bytes up to sixteen. -/
def zeroPadMac (macSize : Nat) (m : Words4) : Words4 :=
  Words4.ofBytes (m.bytes.take macSize ++ List.replicate (16 - macSize) 0)

/-- Modelled from the spec: the body of `AES_ccm` (only its declaration is in `aes.h`).
The transfer is run, the resulting MAC is read back zero-padded into the caller's
buffer, and the return value is the MAC-valid flag on decryption and `true` on
encryption. -/
def AES_ccm (engine : Engine) (ctx : AES_ctx) (inp : List Nat) (macSize : Nat)
    (mac : Words4) (blocks : Nat) (enc : Bool) : CcmResult :=
  let done := ccmDone engine ctx inp macSize mac blocks enc
  { out := done.out
    mac := zeroPadMac macSize done.mac
    ret := if enc then true else AES_IS_MAC_VALID done.REG_AESCNT }

end Aes

namespace Aes

/-! ## Auxiliary facts -/

/-- The documented `macSize` domain, as a membership statement. -/
theorem mem_validMacSizes_iff (m : Nat) :
    m ∈ validMacSizes ↔ m % 2 = 0 ∧ 2 ≤ m ∧ m ≤ 16 := by
  unfold validMacSizes
  constructor
  · intro h
    simp only [List.mem_cons, List.mem_singleton, List.not_mem_nil, or_false] at h
    omega
  · rintro ⟨h2, hlo, hhi⟩
    simp only [List.mem_cons, List.mem_singleton, List.not_mem_nil, or_false]
    omega

/-- Facts about the encoding checked on each documented size. -/
theorem macSize_table : ∀ m ∈ validMacSizes,
    AES_MAC_SIZE m = ((m - 2) / 2) <<< 16 ∧
    AES_MAC_SIZE m >>> 16 ≤ 7 ∧
    AES_MAC_SIZE m &&& (7 <<< 16) = AES_MAC_SIZE m ∧
    m = 2 * (AES_MAC_SIZE m >>> 16) + 2 := by
  decide

/-- `AES_IS_MAC_VALID` is bit 21 of the register value. -/
theorem AES_IS_MAC_VALID_eq_testBit (r : Nat) : AES_IS_MAC_VALID r = r.testBit 21 := by
  unfold AES_IS_MAC_VALID Nat.testBit
  rw [Nat.and_comm]

/-- A value avoids a single-bit mask exactly when that bit is clear. -/
theorem and_two_pow_eq_zero_iff (r k : Nat) : r &&& 2 ^ k = 0 ↔ r.testBit k = false := by
  constructor
  · intro h
    have h2 := congrArg (fun x => x.testBit k) h
    simpa [Nat.testBit_and, Nat.testBit_two_pow_self] using h2
  · intro h
    apply Nat.eq_of_testBit_eq
    intro i
    rw [Nat.testBit_and, Nat.testBit_two_pow, Nat.zero_testBit]
    by_cases hi : k = i
    · subst hi
      simp [h]
    · simp [hi]

/-- `AES_IS_MAC_VALID` tests the register value against the bit-21 mask. -/
theorem AES_IS_MAC_VALID_eq_mask (r : Nat) :
    AES_IS_MAC_VALID r = (r &&& macValidMask != 0) := by
  have hmask : macValidMask = 2 ^ 21 := by decide
  rw [AES_IS_MAC_VALID_eq_testBit, hmask]
  cases hb : r.testBit 21
  · have h0 := (and_two_pow_eq_zero_iff r 21).2 hb
    rw [h0]
    rfl
  · have hne : r &&& 2 ^ 21 ≠ 0 := by
      intro h0
      have hf := (and_two_pow_eq_zero_iff r 21).1 h0
      rw [hb] at hf
      exact Bool.noConfusion hf
    exact (bne_iff_ne.2 hne).symm

/-- The read-FIFO mask is the 5-bit mask shifted to bit 5. -/
theorem and_3E0_eq (r : Nat) : r &&& 0x3E0 = ((r >>> 5) % 2 ^ 5) <<< 5 := by
  have hmask : (0x3E0 : Nat) = (2 ^ 5 - 1) <<< 5 := by decide
  rw [hmask]
  apply Nat.eq_of_testBit_eq
  intro i
  simp only [Nat.testBit_and, Nat.testBit_shiftLeft, Nat.testBit_mod_two_pow,
    Nat.testBit_shiftRight, Nat.testBit_two_pow_sub_one]
  by_cases h : 5 ≤ i
  · have h5 : 5 + (i - 5) = i := by omega
    simp only [ge_iff_le, h, decide_True, Bool.true_and, h5]
    exact Bool.and_comm _ _
  · simp [h]

/-- The write-FIFO mask keeps the value modulo 32. -/
theorem and_1F_eq (r : Nat) : r &&& 0x1F = r % 32 := by
  have h := Nat.and_pow_two_sub_one_eq_mod r 5
  norm_num at h
  exact h

/-- AND distributes over OR from the right. -/
theorem or_and_mask (a b m : Nat) : (a ||| b) &&& m = (a &&& m) ||| (b &&& m) := by
  rw [Nat.and_comm, Nat.and_or_distrib_left, Nat.and_comm m a, Nat.and_comm m b]

/-- An OR of values that all avoid a mask avoids the mask. -/
theorem foldr_or_and_mask (fs : List Nat) (m : Nat) (h : ∀ f ∈ fs, f &&& m = 0) :
    fs.foldr (fun a b => a ||| b) 0 &&& m = 0 := by
  induction fs with
  | nil => simp
  | cons f fs ih =>
    have hf : f &&& m = 0 := h f (List.mem_cons_self f fs)
    have hfs : fs.foldr (fun a b => a ||| b) 0 &&& m = 0 :=
      ih (fun g hg => h g (List.mem_cons_of_mem f hg))
    simp only [List.foldr_cons, or_and_mask, hf, hfs]
    rfl

/-- Bytes of a word are bytes. -/
theorem wordBytes_lt (w : Nat) : ∀ b ∈ wordBytes w, b < 256 := by
  intro b hb
  simp only [wordBytes, List.mem_cons, List.mem_singleton, List.not_mem_nil, or_false] at hb
  rcases hb with h | h | h | h <;> subst h <;> exact Nat.mod_lt _ (by decide)

/-- Reading a byte back out of a word assembled from four bytes. -/
theorem byte_of_word (b0 b1 b2 b3 : Nat) (h0 : b0 < 256) (h1 : b1 < 256) (h2 : b2 < 256)
    (h3 : b3 < 256) :
    ((b0 + 2 ^ 8 * b1 + 2 ^ 16 * b2 + 2 ^ 24 * b3) >>> 0) &&& 0xFF = b0 ∧
    ((b0 + 2 ^ 8 * b1 + 2 ^ 16 * b2 + 2 ^ 24 * b3) >>> 8) &&& 0xFF = b1 ∧
    ((b0 + 2 ^ 8 * b1 + 2 ^ 16 * b2 + 2 ^ 24 * b3) >>> 16) &&& 0xFF = b2 ∧
    ((b0 + 2 ^ 8 * b1 + 2 ^ 16 * b2 + 2 ^ 24 * b3) >>> 24) &&& 0xFF = b3 := by
  have hff : ∀ x : Nat, x &&& 0xFF = x % 256 := by
    intro x
    have h := Nat.and_pow_two_sub_one_eq_mod x 8
    norm_num at h
    exact h
  simp only [hff, Nat.shiftRight_eq_div_pow]
  norm_num
  omega

/-- A missing or present byte of a byte list is a byte. -/
theorem getD_lt (bs : List Nat) (h : ∀ b ∈ bs, b < 256) (i : Nat) : bs.getD i 0 < 256 := by
  by_cases hi : i < bs.length
  · rw [List.getD_eq_getElem bs 0 hi]
    exact h _ (List.getElem_mem hi)
  · rw [List.getD_eq_default bs 0 (by omega)]
    decide

/-- Byte `k` of an array assembled from bytes is byte `k` of the sequence. -/
theorem byteAt_ofBytes (bs : List Nat) (h : ∀ b ∈ bs, b < 256) (k : Nat) (hk : k < 16) :
    (Words4.ofBytes bs).byteAt k = bs.getD k 0 := by
  have hw : ∀ i : Nat,
      ((bytesWord bs i) >>> 0) &&& 0xFF = bs.getD (4 * i) 0 ∧
      ((bytesWord bs i) >>> 8) &&& 0xFF = bs.getD (4 * i + 1) 0 ∧
      ((bytesWord bs i) >>> 16) &&& 0xFF = bs.getD (4 * i + 2) 0 ∧
      ((bytesWord bs i) >>> 24) &&& 0xFF = bs.getD (4 * i + 3) 0 := fun i =>
    byte_of_word _ _ _ _ (getD_lt bs h _) (getD_lt bs h _) (getD_lt bs h _) (getD_lt bs h _)
  have h0 := hw 0
  have h1 := hw 1
  have h2 := hw 2
  have h3 := hw 3
  interval_cases k
  · exact h0.1
  · exact h0.2.1
  · exact h0.2.2.1
  · exact h0.2.2.2
  · exact h1.1
  · exact h1.2.1
  · exact h1.2.2.1
  · exact h1.2.2.2
  · exact h2.1
  · exact h2.2.1
  · exact h2.2.2.1
  · exact h2.2.2.2
  · exact h3.1
  · exact h3.2.1
  · exact h3.2.2.1
  · exact h3.2.2.2

/-- The bytes kept and the zero bytes appended by the padding are bytes. -/
theorem padded_lt (macSize : Nat) (m : Words4) :
    ∀ b ∈ m.bytes.take macSize ++ List.replicate (16 - macSize) 0, b < 256 := by
  intro b hb
  rcases List.mem_append.1 hb with h | h
  · have hb2 : b ∈ m.bytes := List.mem_of_mem_take h
    simp only [Words4.bytes, List.mem_append] at hb2
    rcases hb2 with ((h0 | h1) | h2) | h3
    · exact wordBytes_lt _ b h0
    · exact wordBytes_lt _ b h1
    · exact wordBytes_lt _ b h2
    · exact wordBytes_lt _ b h3
  · rw [List.eq_of_mem_replicate h]
    decide

/-- The array has sixteen bytes. -/
theorem Words4.length_bytes (m : Words4) : m.bytes.length = 16 := by
  simp [Words4.bytes, wordBytes]

/-- Every byte of the padded MAC at or beyond `macSize` is zero. -/
theorem zeroPadMac_tail (macSize : Nat) (m : Words4) (k : Nat) (hk : macSize ≤ k)
    (hk16 : k < 16) : (zeroPadMac macSize m).byteAt k = 0 := by
  unfold zeroPadMac
  rw [byteAt_ofBytes _ (padded_lt macSize m) k hk16]
  have hlen : (m.bytes.take macSize).length = macSize := by
    rw [List.length_take, Words4.length_bytes]
    omega
  rw [List.getD_append_right _ _ _ _ (by omega)]
  rw [List.getD_eq_getElem?_getD, List.getElem?_replicate]
  split <;> rfl

/-- Byte `k` of an array is byte `k` of its byte sequence. -/
theorem Words4.byteAt_eq_getD (m : Words4) (k : Nat) (hk : k < 16) :
    m.byteAt k = m.bytes.getD k 0 := by
  have hff : ∀ x : Nat, x &&& 0xFF = x % 256 := by
    intro x
    have h := Nat.and_pow_two_sub_one_eq_mod x 8
    norm_num at h
    exact h
  obtain ⟨w0, w1, w2, w3⟩ := m
  interval_cases k <;>
    simp [Words4.byteAt, Words4.get, Words4.bytes, wordBytes, hff, Nat.shiftRight_eq_div_pow]

/-- The first `macSize` bytes of the padded MAC are those of the engine's MAC. -/
theorem zeroPadMac_head (macSize : Nat) (m : Words4) (k : Nat) (hk : k < macSize)
    (hk16 : k < 16) : (zeroPadMac macSize m).byteAt k = m.byteAt k := by
  unfold zeroPadMac
  rw [byteAt_ofBytes _ (padded_lt macSize m) k hk16, Words4.byteAt_eq_getD m k hk16]
  have hlen : k < (m.bytes.take macSize).length := by
    rw [List.length_take, Words4.length_bytes]
    omega
  rw [List.getD_append _ _ _ _ hlen]
  simp only [List.getD_eq_getElem?_getD]
  rw [List.getElem?_take_of_lt hk]

/-! ## The MAC-size field -/

/-- C2: for every even `macSize` with `2 ≤ macSize ≤ 16`, `AES_MAC_SIZE(macSize)` is
`((macSize - 2) / 2) << 16`, its field value `result >> 16` is at most 7, the result
has no bit outside bits 16-18, `macSize` is recovered as `2 * (result >> 16) + 2`,
and no other even size in `[2,16]` has the same encoding. -/
theorem AES_MAC_SIZE_encoding (macSize : Nat) (heven : macSize % 2 = 0)
    (hlo : 2 ≤ macSize) (hhi : macSize ≤ 16) :
    AES_MAC_SIZE macSize = ((macSize - 2) / 2) <<< 16 ∧
    AES_MAC_SIZE macSize >>> 16 ≤ 7 ∧
    AES_MAC_SIZE macSize &&& (7 <<< 16) = AES_MAC_SIZE macSize ∧
    macSize = 2 * (AES_MAC_SIZE macSize >>> 16) + 2 ∧
    ∀ other : Nat, other % 2 = 0 → 2 ≤ other → other ≤ 16 →
      AES_MAC_SIZE other = AES_MAC_SIZE macSize → other = macSize := by
  have hm := macSize_table macSize ((mem_validMacSizes_iff macSize).2 ⟨heven, hlo, hhi⟩)
  refine ⟨hm.1, hm.2.1, hm.2.2.1, hm.2.2.2, ?_⟩
  intro other h2 h3 h4 heq
  have ho := macSize_table other ((mem_validMacSizes_iff other).2 ⟨h2, h3, h4⟩)
  have h5 := ho.2.2.2
  have h6 := hm.2.2.2
  rw [heq] at h5
  omega

/-- The C2 statement at `macSize = 8`. -/
theorem AES_MAC_SIZE_encoding_witness :
    AES_MAC_SIZE 8 = ((8 - 2) / 2) <<< 16 ∧
    AES_MAC_SIZE 8 >>> 16 ≤ 7 ∧
    AES_MAC_SIZE 8 &&& (7 <<< 16) = AES_MAC_SIZE 8 ∧
    8 = 2 * (AES_MAC_SIZE 8 >>> 16) + 2 ∧
    ∀ other : Nat, other % 2 = 0 → 2 ≤ other → other ≤ 16 →
      AES_MAC_SIZE other = AES_MAC_SIZE 8 → other = 8 :=
  AES_MAC_SIZE_encoding 8 (by decide) (by decide) (by decide)

/-- C9: `AES_MAC_SIZE` applied to a `u32` outside the even sizes of `[2,16]`: an odd
`n` in `[3,17]` encodes as `n - 1`; 18 encodes as `AES_PASS_PAYLOARD`, outside the
3-bit field; 0 and 1 wrap to `0xFFFF0000`, which contains the whole mode field,
`AES_IRQ_ENABLE` and `AES_ENABLE`. -/
theorem AES_MAC_SIZE_out_of_domain :
    (∀ n : Nat, n % 2 = 1 → 3 ≤ n → n ≤ 17 → AES_MAC_SIZE n = AES_MAC_SIZE (n - 1)) ∧
    AES_MAC_SIZE 18 = AES_PASS_PAYLOARD ∧
    AES_MAC_SIZE 18 &&& (7 <<< 16) = 0 ∧
    AES_MAC_SIZE 0 = 0xFFFF0000 ∧
    AES_MAC_SIZE 1 = 0xFFFF0000 ∧
    0xFFFF0000 &&& AES_MODE_ECB_ENCRYPT = AES_MODE_ECB_ENCRYPT ∧
    AES_MODE_ECB_ENCRYPT = 7 <<< 27 ∧
    0xFFFF0000 &&& AES_IRQ_ENABLE = AES_IRQ_ENABLE ∧
    0xFFFF0000 &&& AES_ENABLE = AES_ENABLE ∧
    AES_IRQ_ENABLE ≠ 0 ∧ AES_ENABLE ≠ 0 := by
  refine ⟨?_, by decide, by decide, by decide, by decide, by decide, by decide,
    by decide, by decide, by decide, by decide⟩
  intro n hodd hlo hhi
  have hmem : n ∈ [3, 5, 7, 9, 11, 13, 15, 17] := by
    simp only [List.mem_cons, List.mem_singleton, List.not_mem_nil, or_false]
    omega
  have htab : ∀ k ∈ [3, 5, 7, 9, 11, 13, 15, 17], AES_MAC_SIZE k = AES_MAC_SIZE (k - 1) := by
    decide
  exact htab n hmem

/-! ## The block ceiling -/

/-- C4: `AES_MAX_BLOCKS` is `0xFFFE`; the largest transfer `AES_MAX_BLOCKS * 16` is
1048544 bytes, a multiple of 32 below `2^20`; every block count below `2^16` whose
byte length is a multiple of 32 is at most `AES_MAX_BLOCKS`, and `0xFFFF * 16` is not
a multiple of 32. -/
theorem AES_MAX_BLOCKS_aligned :
    AES_MAX_BLOCKS = 0xFFFE ∧
    AES_MAX_BLOCKS * AES_BLOCK_SIZE = 1048544 ∧
    (AES_MAX_BLOCKS * AES_BLOCK_SIZE) % 32 = 0 ∧
    AES_MAX_BLOCKS * AES_BLOCK_SIZE < 2 ^ 20 ∧
    AES_MAX_BLOCKS < 2 ^ 16 ∧
    (∀ b : Nat, b < 2 ^ 16 → (b * AES_BLOCK_SIZE) % 32 = 0 → b ≤ AES_MAX_BLOCKS) ∧
    (0xFFFF * AES_BLOCK_SIZE) % 32 ≠ 0 := by
  refine ⟨rfl, by decide, by decide, by decide, by decide, ?_, by decide⟩
  intro b hb hal
  unfold AES_BLOCK_SIZE at hal
  unfold AES_MAX_BLOCKS
  omega

/-- C7: the block count of `AES_ccm` is a `u16`, so every value it carries is below
`2^16`; the `u32` counts of `AES_ctr` and `AES_ecb` carry every such value and more;
among the 16-bit values exactly `0xFFFF` exceeds `AES_MAX_BLOCKS`. -/
theorem AES_ccm_blocks_range :
    (∀ n : Nat, AES_ccm_blocksType.conv n < 2 ^ 16) ∧
    (∀ b : Nat, AES_ccm_blocksType.holds b ↔ b < 2 ^ 16) ∧
    (∀ b : Nat, AES_ccm_blocksType.holds b →
      AES_ctr_blocksType.holds b ∧ AES_ecb_blocksType.holds b) ∧
    (∃ b : Nat, AES_ctr_blocksType.holds b ∧ AES_ecb_blocksType.holds b ∧
      ¬ AES_ccm_blocksType.holds b) ∧
    AES_ccm_blocksType.holds 0xFFFF ∧
    (∀ b : Nat, AES_ccm_blocksType.holds b → (AES_MAX_BLOCKS < b ↔ b = 0xFFFF)) ∧
    (∀ b : Nat, AES_ccm_blocksType.holds b → b ≠ 0xFFFF → b ≤ AES_MAX_BLOCKS) := by
  have hdef : ∀ b : Nat, AES_ccm_blocksType.holds b ↔ b < 2 ^ 16 := fun b => Iff.rfl
  have hctr : ∀ b : Nat, AES_ctr_blocksType.holds b ↔ b < 2 ^ 32 := fun b => Iff.rfl
  have hecb : ∀ b : Nat, AES_ecb_blocksType.holds b ↔ b < 2 ^ 32 := fun b => Iff.rfl
  refine ⟨fun n => Nat.mod_lt _ (by decide), hdef, ?_, ⟨0x10000, by decide⟩,
    by decide, ?_, ?_⟩
  · intro b hb
    rw [hdef] at hb
    rw [hctr, hecb]
    omega
  · intro b hb
    rw [hdef] at hb
    unfold AES_MAX_BLOCKS
    omega
  · intro b hb hne
    rw [hdef] at hb
    unfold AES_MAX_BLOCKS
    omega

/-! ## Order and endianness flags -/

/-- C5: a byte-order flag OR-ed with a word-order flag gives the four distinct values
5, 1, 4, 0, each fitting a `u8`; bit 0 alone returns the byte order and bit 2 alone
the word order, so neither choice disturbs the other; the `AES_OUTPUT_*` constants
equal their `AES_INPUT_*` counterparts. -/
theorem orderEndianess_independent :
    (inputByteOrders.flatMap fun b => inputWordOrders.map fun w => b ||| w) = [5, 1, 4, 0] ∧
    (∀ b ∈ inputByteOrders, ∀ w ∈ inputWordOrders,
      orderEndianessType.holds (b ||| w) ∧
      (b ||| w) &&& 1 = b ∧ (b ||| w) &&& 4 = w) ∧
    (∀ b ∈ inputByteOrders, ∀ w ∈ inputWordOrders,
      ∀ b2 ∈ inputByteOrders, ∀ w2 ∈ inputWordOrders,
      (b ||| w = b2 ||| w2 → b = b2 ∧ w = w2) ∧
      (b ||| w) &&& 4 = (b2 ||| w) &&& 4 ∧
      (b ||| w) &&& 1 = (b ||| w2) &&& 1) ∧
    AES_OUTPUT_BIG = AES_INPUT_BIG ∧ AES_OUTPUT_LITTLE = AES_INPUT_LITTLE ∧
    AES_OUTPUT_NORMAL = AES_INPUT_NORMAL ∧ AES_OUTPUT_REVERSED = AES_INPUT_REVERSED ∧
    outputByteOrders = inputByteOrders ∧ outputWordOrders = inputWordOrders ∧
    (∀ b ∈ outputByteOrders, ∀ w ∈ outputWordOrders,
      orderEndianessType.holds (b ||| w) ∧
      (b ||| w) &&& 1 = b ∧ (b ||| w) &&& 4 = w) := by
  decide

/-! ## Counter arithmetic -/

/-- C1: for a counter of four `u32` words holding the 128-bit integer `c` and a 32-bit
increment `val`, `AES_addCounter` leaves the counter holding `(c + val) mod 2^128`
(the carry runs through all four words and a carry out of the top word is dropped),
and the words stay `u32`. -/
theorem AES_addCounter_value (ctr : Words4) (val : Nat) (hctr : ctr.valid)
    (hval : val < 2 ^ 32) :
    (AES_addCounter ctr val).toNat = (ctr.toNat + val) % 2 ^ 128 ∧
    (AES_addCounter ctr val).valid := by
  obtain ⟨w0, w1, w2, w3⟩ := ctr
  simp only [Words4.valid] at hctr
  simp only [AES_addCounter, addWord, Words4.toNat, Words4.valid, u32]
  norm_num at hctr hval ⊢
  omega

/-- The C1 statement at the all-ones counter with increment 5: the sum wraps past
`2^128` to 4. -/
theorem AES_addCounter_value_witness :
    (AES_addCounter ⟨0xFFFFFFFF, 0xFFFFFFFF, 0xFFFFFFFF, 0xFFFFFFFF⟩ 5).toNat
      = ((Words4.mk 0xFFFFFFFF 0xFFFFFFFF 0xFFFFFFFF 0xFFFFFFFF).toNat + 5) % 2 ^ 128 ∧
    (AES_addCounter ⟨0xFFFFFFFF, 0xFFFFFFFF, 0xFFFFFFFF, 0xFFFFFFFF⟩ 5).valid :=
  AES_addCounter_value ⟨0xFFFFFFFF, 0xFFFFFFFF, 0xFFFFFFFF, 0xFFFFFFFF⟩ 5
    (by decide) (by decide)

/-! ## CCM -/

/-- C3: `AES_ccm` returns `true` whenever `enc` is set, whatever the other arguments;
with `enc` clear it returns `AES_IS_MAC_VALID` of the control register at completion,
which is bit 21 of that register and nothing else; so it returns `false` only on
decryption with bit 21 clear. -/
theorem AES_ccm_return :
    (∀ (engine : Engine) (ctx : AES_ctx) (inp : List Nat) (macSize : Nat) (mac : Words4)
        (blocks : Nat), (AES_ccm engine ctx inp macSize mac blocks true).ret = true) ∧
    (∀ (engine : Engine) (ctx : AES_ctx) (inp : List Nat) (macSize : Nat) (mac : Words4)
        (blocks : Nat),
      (AES_ccm engine ctx inp macSize mac blocks false).ret
        = AES_IS_MAC_VALID (ccmDone engine ctx inp macSize mac blocks false).REG_AESCNT) ∧
    (∀ r : Nat, AES_IS_MAC_VALID r = r.testBit 21) ∧
    (∀ r r2 : Nat, r.testBit 21 = r2.testBit 21 → AES_IS_MAC_VALID r = AES_IS_MAC_VALID r2) ∧
    (∀ (engine : Engine) (ctx : AES_ctx) (inp : List Nat) (macSize : Nat) (mac : Words4)
        (blocks : Nat) (enc : Bool),
      (AES_ccm engine ctx inp macSize mac blocks enc).ret = false ↔
        enc = false ∧
        (ccmDone engine ctx inp macSize mac blocks enc).REG_AESCNT.testBit 21 = false) := by
  refine ⟨fun _ _ _ _ _ _ => rfl, fun _ _ _ _ _ _ => rfl, AES_IS_MAC_VALID_eq_testBit, ?_, ?_⟩
  · intro r r2 h
    rw [AES_IS_MAC_VALID_eq_testBit, AES_IS_MAC_VALID_eq_testBit, h]
  · intro engine ctx inp macSize mac blocks enc
    cases enc
    · simp [AES_ccm, AES_IS_MAC_VALID_eq_testBit]
    · simp [AES_ccm]

/-- C6: after `AES_ccm`, every byte of the 16-byte `mac` buffer at an offset `k` with
`macSize ≤ k < 16` is zero, on encryption and on decryption; this covers every even
`macSize` in `[2,16]` below 16. -/
theorem AES_ccm_mac_padding (engine : Engine) (ctx : AES_ctx) (inp : List Nat)
    (macSize : Nat) (mac : Words4) (blocks : Nat) (enc : Bool)
    (k : Nat) (hk : macSize ≤ k) (hk16 : k < 16) :
    (AES_ccm engine ctx inp macSize mac blocks enc).mac.byteAt k = 0 :=
  zeroPadMac_tail macSize _ k hk hk16

/-- The C6 statement for an engine that reports an all-ones MAC, at `macSize = 6` and
byte offset 7 of an encryption. -/
theorem AES_ccm_mac_padding_witness :
    (AES_ccm ⟨fun _ _ _ _ inp => ⟨inp, ⟨0xFFFFFFFF, 0xFFFFFFFF, 0xFFFFFFFF, 0xFFFFFFFF⟩, 0⟩⟩
      ⟨0, ⟨1, 2, 3, 0⟩, 0⟩ [0, 0, 0, 0] 6 ⟨0, 0, 0, 0⟩ 1 true).mac.byteAt 7 = 0 :=
  AES_ccm_mac_padding _ _ _ 6 _ _ _ 7 (by decide) (by decide)

/-! ## Layout of the control register -/

/-- C8: the fields of the control register defined by the header (FIFO count masks,
flush bits, MAC-size field, pass-payload, MAC source, MAC-valid bit, keyslot update,
mode field, interrupt enable, enable) are pairwise bit-disjoint 32-bit values; every
`AES_MAC_SIZE` of a documented size lies in bits 16-18; the seven mode codes are
distinct and lie in bits 27-29; so a control value built from a mode code, any flags
and a MAC size gives back the mode code under `7<<27` and the MAC size under `7<<16`. -/
theorem control_fields_disjoint :
    (∀ r : Nat, AES_WRITE_FIFO_COUNT r = r &&& writeFifoMask) ∧
    (∀ r : Nat, AES_READ_FIFO_COUNT r = r &&& readFifoMask) ∧
    (∀ r : Nat, AES_IS_MAC_VALID r = (r &&& macValidMask != 0)) ∧
    macSizeField = 7 <<< 16 ∧ modeField = 7 <<< 27 ∧ macValidMask = 1 <<< 21 ∧
    controlFields.Pairwise (fun a b => a &&& b = 0) ∧
    (∀ f ∈ controlFields, f < 2 ^ 32) ∧
    (∀ n ∈ validMacSizes, AES_MAC_SIZE n &&& macSizeField = AES_MAC_SIZE n ∧
      ∀ f ∈ controlFields, f ≠ macSizeField → AES_MAC_SIZE n &&& f = 0) ∧
    aesModes.Nodup ∧ aesModes.length = 7 ∧
    (∀ m ∈ aesModes, m &&& modeField = m ∧
      ∀ f ∈ controlFields, f ≠ modeField → m &&& f = 0) ∧
    (∀ flags : List Nat, (∀ f ∈ flags, f ∈ controlFlags) →
      ∀ m ∈ aesModes, ∀ n ∈ validMacSizes,
        controlValue m flags n &&& (7 <<< 27) = m ∧
        controlValue m flags n &&& (7 <<< 16) = AES_MAC_SIZE n) := by
  refine ⟨fun _ => rfl, fun _ => rfl, ?_, by decide, by decide, by decide, by decide,
    by decide, by decide, by decide, by decide, by decide, ?_⟩
  · intro r
    exact AES_IS_MAC_VALID_eq_mask r
  · intro flags hflags m hm n hn
    have hfm : flags.foldr (fun a b => a ||| b) 0 &&& (7 <<< 27) = 0 :=
      foldr_or_and_mask flags _ (fun f hf => by
        have hall : ∀ g ∈ controlFlags, g &&& (7 <<< 27) = 0 := by decide
        exact hall f (hflags f hf))
    have hfs : flags.foldr (fun a b => a ||| b) 0 &&& (7 <<< 16) = 0 :=
      foldr_or_and_mask flags _ (fun f hf => by
        have hall : ∀ g ∈ controlFlags, g &&& (7 <<< 16) = 0 := by decide
        exact hall f (hflags f hf))
    have hmode : ∀ a ∈ aesModes, a &&& (7 <<< 27) = a ∧ a &&& (7 <<< 16) = 0 := by decide
    have hsize : ∀ a ∈ validMacSizes,
        AES_MAC_SIZE a &&& (7 <<< 27) = 0 ∧ AES_MAC_SIZE a &&& (7 <<< 16) = AES_MAC_SIZE a := by
      decide
    unfold controlValue
    rw [or_and_mask, or_and_mask, or_and_mask, or_and_mask, hfm, hfs, (hmode m hm).1,
      (hmode m hm).2, (hsize n hn).1, (hsize n hn).2]
    simp

/-- C10: for every control-register value `r`, `AES_WRITE_FIFO_COUNT` is `r mod 32`,
at most 31; `AES_READ_FIFO_COUNT` is the unshifted `32 * ((r >> 5) mod 32)`, a
multiple of 32 no larger than `0x3E0`, and zero exactly when bits 5-9 of `r` are
clear; changing only bits 0-4 leaves the read count unchanged and changing only
bits 5-9 leaves the write count unchanged. -/
theorem fifo_counts (r : Nat) :
    AES_WRITE_FIFO_COUNT r = r % 32 ∧
    AES_WRITE_FIFO_COUNT r ≤ 31 ∧
    AES_READ_FIFO_COUNT r = 32 * ((r >>> 5) % 32) ∧
    AES_READ_FIFO_COUNT r % 32 = 0 ∧
    AES_READ_FIFO_COUNT r ≤ 0x3E0 ∧
    (AES_READ_FIFO_COUNT r = 0 ↔ ∀ i : Nat, 5 ≤ i → i ≤ 9 → r.testBit i = false) ∧
    (∀ r2 : Nat, (∀ i : Nat, 5 ≤ i → r2.testBit i = r.testBit i) →
      AES_READ_FIFO_COUNT r2 = AES_READ_FIFO_COUNT r) ∧
    (∀ r2 : Nat, (∀ i : Nat, (i < 5 ∨ 10 ≤ i) → r2.testBit i = r.testBit i) →
      AES_WRITE_FIFO_COUNT r2 = AES_WRITE_FIFO_COUNT r) := by
  have hread : ∀ x : Nat, AES_READ_FIFO_COUNT x = 32 * ((x >>> 5) % 32) := by
    intro x
    unfold AES_READ_FIFO_COUNT
    rw [and_3E0_eq, Nat.shiftLeft_eq]
    norm_num
    exact Nat.mul_comm _ _
  have hwrite : ∀ x : Nat, AES_WRITE_FIFO_COUNT x = x % 32 := fun x => and_1F_eq x
  refine ⟨hwrite r, ?_, hread r, ?_, ?_, ?_, ?_, ?_⟩
  · rw [hwrite]
    omega
  · rw [hread]
    omega
  · rw [hread]
    omega
  · rw [hread]
    constructor
    · intro h0 i h5 h9
      have hz : (r >>> 5) % 2 ^ 5 = 0 := by
        norm_num
        omega
      have hb := congrArg (fun x => x.testBit (i - 5)) hz
      simp only [Nat.testBit_mod_two_pow, Nat.testBit_shiftRight, Nat.zero_testBit] at hb
      have hi : 5 + (i - 5) = i := by omega
      have hlt : i - 5 < 5 := by omega
      rw [hi] at hb
      simpa [hlt] using hb
    · intro hbits
      have hz : (r >>> 5) % 2 ^ 5 = 0 := by
        apply Nat.eq_of_testBit_eq
        intro j
        rw [Nat.testBit_mod_two_pow, Nat.testBit_shiftRight, Nat.zero_testBit]
        by_cases hj : j < 5
        · rw [hbits (5 + j) (by omega) (by omega)]
          simp
        · simp [hj]
      norm_num at hz
      omega
  · intro r2 hsame
    unfold AES_READ_FIFO_COUNT
    apply Nat.eq_of_testBit_eq
    intro i
    rw [Nat.testBit_and, Nat.testBit_and]
    by_cases h5 : 5 ≤ i
    · rw [hsame i h5]
    · have hm : (0x3E0 : Nat).testBit i = false := by
        have hi : i < 5 := by omega
        interval_cases i <;> decide
      rw [hm, Bool.and_false, Bool.and_false]
  · intro r2 hsame
    unfold AES_WRITE_FIFO_COUNT
    apply Nat.eq_of_testBit_eq
    intro i
    rw [Nat.testBit_and, Nat.testBit_and]
    by_cases h5 : i < 5
    · rw [hsame i (Or.inl h5)]
    · have hm : (0x1F : Nat).testBit i = false :=
        Nat.testBit_lt_two_pow (Nat.lt_of_lt_of_le (by decide : (0x1F : Nat) < 2 ^ 5)
          (Nat.pow_le_pow_right (by decide) (by omega)))
      rw [hm, Bool.and_false, Bool.and_false]

end Aes
